import Mathlib

/-!
Verification of the Spano nutrition-tracking backend (`main.py`).

The embedding models the module-level state (`users`, `meals` dictionaries,
which preserve insertion order) as association lists, Python floats as exact
rationals, and each endpoint handler as a pure function that takes the state
and the current wall-clock instant explicitly and returns the result together
with the updated state.  Errors raised before any mutation leave the state
unchanged, exactly as in the source.
-/

namespace Spano

/-- The four-field nutrient aggregate `{calories, protein, carbs, fiber}`. -/
structure Nutrients where
  calories : ℚ
  protein : ℚ
  carbs : ℚ
  fiber : ℚ
deriving DecidableEq

instance : Zero Nutrients := ⟨⟨0, 0, 0, 0⟩⟩

instance : Add Nutrients :=
  ⟨fun a b => ⟨a.calories + b.calories, a.protein + b.protein,
               a.carbs + b.carbs, a.fiber + b.fiber⟩⟩

theorem Nutrients.add_def (a b : Nutrients) :
    a + b = ⟨a.calories + b.calories, a.protein + b.protein,
             a.carbs + b.carbs, a.fiber + b.fiber⟩ := rfl

theorem Nutrients.zero_def : (0 : Nutrients) = ⟨0, 0, 0, 0⟩ := rfl

instance : AddCommMonoid Nutrients where
  add_assoc a b c := by
    cases a; cases b; cases c
    simp [Nutrients.add_def, add_assoc]
  zero_add a := by cases a; simp [Nutrients.add_def, Nutrients.zero_def]
  add_zero a := by cases a; simp [Nutrients.add_def, Nutrients.zero_def]
  add_comm a b := by
    cases a; cases b
    simp [Nutrients.add_def, add_comm]
  nsmul := nsmulRec

/-- The static food reference table `food_database` from `main.py`,
in source order. -/
def food_database : List (String × Nutrients) :=
  [("rice", ⟨130, 2.7, 28, 0.4⟩),
   ("dal", ⟨116, 6.8, 20, 7.5⟩),
   ("cucumber", ⟨16, 0.7, 3.6, 0.5⟩),
   ("chicken", ⟨165, 31, 0, 0⟩),
   ("bread", ⟨265, 9, 49, 2.7⟩),
   ("milk", ⟨42, 3.4, 5, 0⟩),
   ("egg", ⟨155, 13, 1.1, 0⟩),
   ("banana", ⟨89, 1.1, 23, 2.6⟩),
   ("apple", ⟨52, 0.3, 14, 2.4⟩),
   ("salad", ⟨20, 2, 4, 1.5⟩),
   ("pasta", ⟨131, 5, 25, 1.8⟩),
   ("fish", ⟨84, 18, 0, 0⟩),
   ("beef", ⟨250, 26, 0, 0⟩),
   ("potato", ⟨77, 2, 17, 2.2⟩),
   ("tomato", ⟨18, 0.9, 3.9, 1.2⟩),
   ("onion", ⟨40, 1.1, 9.3, 1.7⟩),
   ("carrot", ⟨41, 0.9, 10, 2.8⟩),
   ("spinach", ⟨23, 2.9, 3.6, 2.2⟩),
   ("yogurt", ⟨59, 10, 3.6, 0⟩),
   ("cheese", ⟨113, 7, 0.4, 0⟩)]

/-- Dictionary lookup (`food_database[item]` / `item in food_database`). -/
def lookupFood (name : String) : Option Nutrients :=
  (food_database.find? (fun p => p.1 = name)).map (fun p => p.2)

/-- Python `str.lower()` (ASCII range, which covers every string the service
handles). -/
def pyLower (s : String) : String := ⟨s.data.map Char.toLower⟩

/-- Python `str.strip()` with no argument: remove leading and trailing
whitespace. -/
def pyStrip (s : String) : String :=
  ⟨((s.data.dropWhile Char.isWhitespace).reverse.dropWhile
      Char.isWhitespace).reverse⟩

/-- Python `s.startswith(p)`. -/
def pyStartsWith (s p : String) : Bool :=
  s.data.take p.data.length = p.data

/-- Python slicing `s[n:]` (by code point). -/
def pyDrop (s : String) (n : ℕ) : String := ⟨s.data.drop n⟩

/-- Python `str.split(sep)` for a one-character separator: unlimited splits,
empty pieces kept (`"a,,b" ↦ ["a","","b"]`, `"" ↦ [""]`). -/
def splitOnCharAux (c : Char) : List Char → List Char → List String
  | [], acc => [⟨acc.reverse⟩]
  | x :: xs, acc =>
    if x = c then ⟨acc.reverse⟩ :: splitOnCharAux c xs []
    else splitOnCharAux c xs (x :: acc)

def splitOnChar (c : Char) (s : String) : List String :=
  splitOnCharAux c s.data []

/-- `calculate_nutrients` from `main.py`: running fieldwise totals, each item
normalised by `item.lower().strip()`; items absent from the table are skipped
(the function is total: it never signals an error).  Values are exact
rationals: this idealisation of the source's float accumulation is used only
where the compared runs perform identical additions in identical order, so
no rounding difference can arise; order-of-summation properties are settled
against the bit-exact float model `calculate_nutrients_fl` below. -/
def calculate_nutrients (food_items : List String) : Nutrients :=
  food_items.foldl
    (fun acc item =>
      match lookupFood (pyStrip (pyLower item)) with
      | some n => acc + n
      | none => acc)
    0

/-- `round(x, 2)` on exact rationals (the source rounds a Python float). -/
def round2 (q : ℚ) : ℚ := (round (q * 100) : ℤ) / 100

/-- The male branch of `calculate_bmr` (Harris-Benedict). -/
def bmr_male (weight height : ℚ) (age : ℤ) : ℚ :=
  round2 (88.362 + (13.397 * weight) + (4.799 * height) - (5.677 * (age : ℚ)))

/-- The female branch of `calculate_bmr` (Harris-Benedict). -/
def bmr_female (weight height : ℚ) (age : ℤ) : ℚ :=
  round2 (447.593 + (9.247 * weight) + (3.098 * height) - (4.33 * (age : ℚ)))

/-- The error taxonomy of the service (spec §7); the source surfaces these as
`HTTPException` / `ValueError`. -/
inductive ApiError
  | invalidGender
  | invalidFormat
  | invalidMealType
  | noFoodItems
  | userNotFound
  | invalidDateFormat
deriving DecidableEq

/-- `calculate_bmr` from `main.py`: dispatches on `gender.lower()` and raises
for any other value.  Pure: a function of its four arguments only. -/
def calculate_bmr (weight height : ℚ) (age : ℤ) (gender : String) :
    Except ApiError ℚ :=
  if pyLower gender = "male" then .ok (bmr_male weight height age)
  else if pyLower gender = "female" then .ok (bmr_female weight height age)
  else .error .invalidGender

example : calculate_nutrients [] = 0 := rfl
example : lookupFood (pyStrip (pyLower " Rice ")) = lookupFood "rice" := rfl
example : calculate_bmr 70 170 25 "Male" = .ok (bmr_male 70 170 25) := rfl
example : calculate_bmr 70 170 25 "other" = .error .invalidGender := rfl

/-! ### The free-text command parser (webhook, `main.py` lines 289-309) -/

/-- Python `message[4:].split(":", 1)` restricted to the length-2 case: the
source raises `InvalidFormat` when the split yields fewer than two parts,
which happens exactly when the string has no colon.  When a colon exists the
two parts are the text before the first colon and everything after it. -/
def splitFirstColon (s : String) : Option (String × String) :=
  if ':' ∈ s.data then
    some (⟨s.data.takeWhile (fun c => c ≠ ':')⟩,
          ⟨(s.data.dropWhile (fun c => c ≠ ':')).tail⟩)
  else none

def valid_meals : List String := ["breakfast", "lunch", "dinner"]

/-- Lines 289-309 of `webhook_handler`: strip the message, require the
`"log "` prefix, split off the meal type at the first colon, validate it,
split the right part on commas, strip every token and drop empties.
Returns the lowercased meal type and the surviving food items. -/
def parse_message (message : String) : Except ApiError (String × List String) :=
  let msg := pyStrip message
  if ¬ pyStartsWith msg "log " then .error .invalidFormat
  else
    match splitFirstColon (pyDrop msg 4) with
    | none => .error .invalidFormat
    | some (l, r) =>
      let meal_type := pyLower (pyStrip l)
      if meal_type ∉ valid_meals then .error .invalidMealType
      else
        let food_items_str := pyStrip r
        let food_items :=
          ((splitOnChar ',' food_items_str).map pyStrip).filter
            (fun t => t ≠ "")
        if food_items = [] then .error .noFoodItems
        else .ok (meal_type, food_items)

example : parse_message "log lunch:rice,,dal" = .ok ("lunch", ["rice", "dal"]) := rfl
example : parse_message "log breakfast: bread, milk, banana" =
    .ok ("breakfast", ["bread", "milk", "banana"]) := rfl
example : parse_message "log :rice" = .error .invalidMealType := rfl
example : parse_message "log lunch:" = .error .noFoodItems := rfl
example : parse_message "log lunch rice" = .error .invalidFormat := rfl
example : parse_message "hello" = .error .invalidFormat := rfl

/-! ### Decimal rendering of identifiers

Python's f-string `f"user_{n}_{ts}"` renders `n` and `ts` in decimal.
`natDigits` is that decimal rendering (most significant digit first). -/

/-- Worker for `natDigits`; the fuel argument only makes the recursion
structural (any fuel above the value itself is enough, see
`natDigitsAux_fuel`). -/
def natDigitsAux : ℕ → ℕ → List Char
  | 0, _ => []
  | fuel + 1, n =>
    if n < 10 then [Nat.digitChar n]
    else natDigitsAux fuel (n / 10) ++ [Nat.digitChar (n % 10)]

def natDigits (n : ℕ) : List Char := natDigitsAux (n + 1) n

/-- Read a most-significant-first digit list back as a number. -/
def digitsToNat (l : List Char) : ℕ :=
  l.foldl (fun a c => 10 * a + (c.toNat - 48)) 0

def natStr (n : ℕ) : String := ⟨natDigits n⟩

def mkUserId (n ts : ℕ) : String := "user_" ++ natStr n ++ "_" ++ natStr ts

def mkMealId (n ts : ℕ) : String := "meal_" ++ natStr n ++ "_" ++ natStr ts

def mkWebhookMealId (n ts : ℕ) : String :=
  "webhook_meal_" ++ natStr n ++ "_" ++ natStr ts

example : mkUserId 3 1650000000 = "user_3_1650000000" := rfl
example : mkWebhookMealId 2 7 = "webhook_meal_2_7" := rfl

/-! ### Calendar dates and the module state -/

/-- A calendar date, as compared by `datetime.date` equality. -/
structure Date where
  year : ℕ
  month : ℕ
  day : ℕ
deriving DecidableEq

/-- A wall-clock instant: the calendar date (`datetime.date()` of the moment)
together with `int(datetime.timestamp())`, the two projections the source
uses.  The source stores `isoformat()` strings and parses them back with
`fromisoformat`, a lossless round trip, so the instant is stored directly. -/
structure DateTime where
  date : Date
  epoch : ℕ
deriving DecidableEq

/-- A record of the `users` dictionary (the `id` key is the dictionary key). -/
structure User where
  name : String
  age : ℤ
  weight : ℚ
  height : ℚ
  gender : String
  goal : String
  bmr : ℚ
  created_at : DateTime
deriving DecidableEq

/-- A record of the `meals` dictionary (the `id` key is the dictionary key). -/
structure Meal where
  user_id : String
  meal_type : String
  food_items : List String
  logged_at : DateTime
  nutrients : Nutrients
deriving DecidableEq

/-- The module-level mutable state: the `users` and `meals` dictionaries,
modelled as association lists in insertion order (Python dictionaries
preserve insertion order, and `.values()` iterates in it). -/
structure State where
  users : List (String × User)
  meals : List (String × Meal)

def State.empty : State := ⟨[], []⟩

/-- Dictionary membership/read: first (and only) binding of a key. -/
def lookupA {α : Type} : List (String × α) → String → Option α
  | [], _ => none
  | (k', v) :: t, k => if k' = k then some v else lookupA t k

/-- Dictionary write `d[k] = v`: overwrite in place if the key exists,
otherwise append at the end. -/
def insertA {α : Type} : List (String × α) → String → α → List (String × α)
  | [], k, v => [(k, v)]
  | (k', v') :: t, k, v =>
    if k' = k then (k, v) :: t else (k', v') :: insertA t k v

/-! ### Endpoint handlers

Each handler takes the state and the current instant explicitly and returns
the endpoint's result together with the state after the call.  Every error
in the source is raised before the state is mutated, so error results leave
the state unchanged. -/

/-- The payload of `POST /register` (boundary validation — positivity,
non-emptiness — is enforced by the excluded transport layer). -/
structure UserRegistration where
  name : String
  age : ℤ
  weight : ℚ
  height : ℚ
  gender : String
  goal : String

/-- `register_user` from `main.py`: compute the BMR (an invalid gender
aborts before any mutation), mint `user_{len(users)+1}_{timestamp}`, store
the record, return the id and the BMR. -/
def register_user (s : State) (now : DateTime) (d : UserRegistration) :
    Except ApiError (String × ℚ) × State :=
  match calculate_bmr d.weight d.height d.age d.gender with
  | .error e => (.error e, s)
  | .ok bmr =>
    let user_id := mkUserId (s.users.length + 1) now.epoch
    let u : User :=
      ⟨d.name, d.age, d.weight, d.height, d.gender, d.goal, bmr, now⟩
    (.ok (user_id, bmr), ⟨insertA s.users user_id u, s.meals⟩)

/-- `log_meals` from `main.py` (the structured ingestion path): unknown user
and invalid meal type abort before any mutation; otherwise the meal is
appended with frozen nutrient totals and id `meal_{len(meals)+1}_{ts}`. -/
def log_meals (s : State) (now : DateTime) (user meal : String)
    (items : List String) : Except ApiError (String × Nutrients) × State :=
  if (lookupA s.users user).isNone then (.error .userNotFound, s)
  else if pyLower meal ∉ valid_meals then (.error .invalidMealType, s)
  else
    let nutrients := calculate_nutrients items
    let meal_id := mkMealId (s.meals.length + 1) now.epoch
    let m : Meal := ⟨user, pyLower meal, items, now, nutrients⟩
    (.ok (meal_id, nutrients), ⟨s.users, insertA s.meals meal_id m⟩)

/-- The user's meals in ledger (insertion) order:
`[meal for meal in meals.values() if meal["user_id"] == user]`. -/
def mealsFor (s : State) (user : String) : List Meal :=
  (s.meals.filter (fun p => p.2.user_id = user)).map (fun p => p.2)

/-- The body of `GET /status/{user}`. -/
structure StatusResp where
  name : String
  bmr : ℚ
  consumed : Nutrients
  total_meals : ℕ
deriving DecidableEq

/-- `get_user_status` from `main.py`: unknown user fails; otherwise the
frozen nutrient totals of the user's meals are folded fieldwise from zero
and returned with the stored BMR and the meal count. -/
def get_user_status (s : State) (user : String) : Except ApiError StatusResp :=
  match lookupA s.users user with
  | none => .error .userNotFound
  | some u =>
    let user_meals := mealsFor s user
    let total := user_meals.foldl (fun acc m => acc + m.nutrients) 0
    .ok ⟨u.name, u.bmr, total, user_meals.length⟩

/-- The fixed placeholder record the webhook path provisions for
`"webhook_user"` (lines 311-323). -/
def default_webhook_user (now : DateTime) : User :=
  ⟨"Webhook User", 25, 70, 170, "male", "general", bmr_male 70 170 25, now⟩

/-- `webhook_handler` from `main.py` (the free-text ingestion path): parse
the message (`parse_message`); on success lazily provision the fixed
`"webhook_user"` identity, then append the meal against it with id
`webhook_meal_{len(meals)+1}_{ts}`.  Echoes the meal id, meal type, resolved
food items and nutrient totals. -/
def webhook_handler (s : State) (now : DateTime) (message : String) :
    Except ApiError (String × String × List String × Nutrients) × State :=
  match parse_message message with
  | .error e => (.error e, s)
  | .ok (meal_type, food_items) =>
    let s1 : State :=
      if (lookupA s.users "webhook_user").isNone then
        ⟨insertA s.users "webhook_user" (default_webhook_user now), s.meals⟩
      else s
    let meal_id := mkWebhookMealId (s1.meals.length + 1) now.epoch
    let nutrients := calculate_nutrients food_items
    let m : Meal := ⟨"webhook_user", meal_type, food_items, now, nutrients⟩
    (.ok (meal_id, meal_type, food_items, nutrients),
     ⟨s1.users, insertA s1.meals meal_id m⟩)

/-! ## Lemmas about the nutrient aggregator -/

/-- The contribution of one submitted name: its table entry after
normalisation, or zero when absent. -/
def contribOf (item : String) : Nutrients :=
  (lookupFood (pyStrip (pyLower item))).getD 0

theorem calculate_nutrients_foldl (a : Nutrients) (l : List String) :
    l.foldl
      (fun acc item =>
        match lookupFood (pyStrip (pyLower item)) with
        | some n => acc + n
        | none => acc)
      a = a + (l.map contribOf).sum := by
  induction l generalizing a with
  | nil => simp
  | cons x xs ih =>
    have hstep :
        (match lookupFood (pyStrip (pyLower x)) with
          | some n => a + n
          | none => a) = a + contribOf x := by
      unfold contribOf
      cases lookupFood (pyStrip (pyLower x)) <;> simp
    simp only [List.foldl_cons, List.map_cons, List.sum_cons, hstep, ih,
      add_assoc]

theorem calculate_nutrients_eq_sum (l : List String) :
    calculate_nutrients l = (l.map contribOf).sum := by
  unfold calculate_nutrients
  rw [calculate_nutrients_foldl, zero_add]

/-- C5: `calculate_nutrients` on the empty list returns all-zero totals, and
a name whose normalised form misses the Food Reference contributes zero to
every field wherever it appears — it is silently skipped, and (the function
being total) no error or partial-failure signal exists. -/
theorem calculate_nutrients_empty_and_skips_unknown :
    calculate_nutrients [] = 0 ∧
    ∀ (pre post : List String) (name : String),
      lookupFood (pyStrip (pyLower name)) = none →
      calculate_nutrients (pre ++ name :: post) =
        calculate_nutrients (pre ++ post) := by
  refine ⟨rfl, fun pre post name hmiss => ?_⟩
  have hcontrib : contribOf name = 0 := by
    unfold contribOf
    rw [hmiss]
    rfl
  simp [calculate_nutrients_eq_sum, hcontrib]

theorem calculate_nutrients_empty_and_skips_unknown_witness :
    calculate_nutrients ["rice", "pizza", "dal"] =
      calculate_nutrients ["rice", "dal"] :=
  calculate_nutrients_empty_and_skips_unknown.2 ["rice"] ["dal"] "pizza" rfl

/-! ### Bit-exact model of the aggregator's float accumulation (C6)

`calculate_nutrients` above idealises Python floats as exact rationals.
That idealisation is harmless where the compared runs perform the same
additions in the same order (the skip property, the status fold), but a
claim about *reordering* the summation is about IEEE-754 double rounding
itself, which is commutative but not associative.  This model is
bit-exact: every value the program's accumulation loop touches — the
parsed table literals and all running totals — is a non-negative binary64
double and an integer multiple of 2⁻⁵⁴, far below overflow, so each value
is represented by the natural number `value · 2⁵⁴` and `fladdScaled` is
exactly IEEE-754 round-to-nearest-even double addition on that domain. -/

structure NutrientsS where
  calories : ℕ
  protein : ℕ
  carbs : ℕ
  fiber : ℕ
deriving DecidableEq

/-- Floor of `log₂` (the fuel argument only makes the recursion structural;
any fuel at or above the value is enough). -/
def natLog2Aux : ℕ → ℕ → ℕ
  | 0, _ => 0
  | fuel + 1, n => if n < 2 then 0 else natLog2Aux fuel (n / 2) + 1

def natLog2 (n : ℕ) : ℕ := natLog2Aux n n

/-- IEEE-754 binary64 addition of two non-negative doubles given as
multiples of 2⁻⁵⁴ (scaled to integers): the sum is exact on this grid; if it
needs more than 53 significand bits it is rounded to the nearest
representable double, ties to the even significand. -/
def fladdScaled (A B : ℕ) : ℕ :=
  let S := A + B
  if S < 2 ^ 53 then S
  else
    let g := natLog2 S - 52
    let q := S / 2 ^ g
    let r := S % 2 ^ g
    let half := 2 ^ (g - 1)
    if r < half then q * 2 ^ g
    else if half < r then (q + 1) * 2 ^ g
    else if q % 2 = 0 then q * 2 ^ g else (q + 1) * 2 ^ g

/-- Fieldwise float accumulation, one `+=` per nutrient field. -/
def addS (a b : NutrientsS) : NutrientsS :=
  ⟨fladdScaled a.calories b.calories, fladdScaled a.protein b.protein,
   fladdScaled a.carbs b.carbs, fladdScaled a.fiber b.fiber⟩

/-- `food_database` with each entry's exact binary64 value scaled by 2⁵⁴:
e.g. the double the literal `2.7` denotes is
`6079859496950170 · 2⁻⁵¹ = 48638875975601360 · 2⁻⁵⁴`. -/
def food_database_fl : List (String × NutrientsS) :=
  [("rice", ⟨2341871806232657920, 48638875975601360, 504403158265495552, 7205759403792794⟩),
   ("dal", ⟨2089670227099910144, 122497909864477488, 360287970189639680, 135107988821114880⟩),
   ("cucumber", ⟨288230376151711744, 12610078956637388, 64851834634135144, 9007199254740992⟩),
   ("chicken", ⟨2972375754064527360, 558446353793941504, 0, 0⟩),
   ("bread", ⟨4773815605012725760, 162129586585337856, 882705526964617216, 48638875975601360⟩),
   ("milk", ⟨756604737398243328, 61248954932238744, 90071992547409920, 0⟩),
   ("egg", ⟨2792231768969707520, 234187180623265792, 19815838360430184, 0⟩),
   ("banana", ⟨1603281467343896576, 19815838360430184, 414331165718085632, 46837436124653160⟩),
   ("apple", ⟨936748722493063168, 5404319552844595, 252201579132747776, 43234556422756760⟩),
   ("salad", ⟨360287970189639680, 36028797018963968, 72057594037927936, 27021597764222976⟩),
   ("pasta", ⟨2359886204742139904, 90071992547409920, 450359962737049600, 32425917317067572⟩),
   ("fish", ⟨1513209474796486656, 324259173170675712, 0, 0⟩),
   ("beef", ⟨4503599627370496000, 468374361246531584, 0, 0⟩),
   ("potato", ⟨1387108685230112768, 36028797018963968, 306244774661193728, 39631676720860368⟩),
   ("tomato", ⟨324259173170675712, 16212958658533786, 70256154186979736, 21617278211378380⟩),
   ("onion", ⟨720575940379279360, 19815838360430184, 167533906138182464, 30624477466119372⟩),
   ("carrot", ⟨738590338888761344, 16212958658533786, 180143985094819840, 50440315826549552⟩),
   ("spinach", ⟨414331165718085632, 52241755677497752, 64851834634135144, 39631676720860368⟩),
   ("yogurt", ⟨1062849512059437056, 180143985094819840, 64851834634135144, 0⟩),
   ("cheese", ⟨2035627031571464192, 126100789566373888, 7205759403792794, 0⟩)]

def lookupFoodFl (name : String) : Option NutrientsS :=
  (food_database_fl.find? (fun p => p.1 = name)).map (fun p => p.2)

/-- `calculate_nutrients` with bit-exact binary64 accumulation: same loop,
same normalisation, same skip rule as the rational idealisation above. -/
def calculate_nutrients_fl (food_items : List String) : NutrientsS :=
  food_items.foldl
    (fun acc item =>
      match lookupFoodFl (pyStrip (pyLower item)) with
      | some n => addS acc n
      | none => acc)
    ⟨0, 0, 0, 0⟩

/-- Float addition is commutative (the rounded value depends only on the
exact sum). -/
theorem addS_comm (a b : NutrientsS) : addS a b = addS b a := by
  cases a; cases b
  simp [addS, fladdScaled, Nat.add_comm]

/-- Every table value is itself a representable double, so adding it to
float zero returns it exactly. -/
theorem addS_zero_left_table :
    ∀ p ∈ food_database_fl, addS ⟨0, 0, 0, 0⟩ p.2 = p.2 := by decide

theorem lookupFoodFl_zero_left {name : String} {c : NutrientsS}
    (h : lookupFoodFl name = some c) : addS ⟨0, 0, 0, 0⟩ c = c := by
  unfold lookupFoodFl at h
  cases hf : food_database_fl.find? (fun p => p.1 = name) with
  | none => rw [hf] at h; exact absurd h (by simp)
  | some p =>
    rw [hf] at h
    simp only [Option.map_some', Option.some.injEq] at h
    rw [← h]
    exact addS_zero_left_table p (List.mem_of_find?_eq_some hf)

/-- C6 fails as stated on the program's arithmetic: `["rice","dal","bread"]`
is a permutation of `["rice","bread","dal"]`, but the float accumulation
returns fiber `0.4 + 7.5 + 2.7 = 10.600000000000001` for the first order
and `0.4 + 2.7 + 7.5 = 10.6` for the second (scaled: 190952624200509056
versus 190952624200509024), so the totals differ. -/
theorem calculate_nutrients_perm_counterexample :
    (["rice", "bread", "dal"] : List String).Perm ["rice", "dal", "bread"] ∧
    calculate_nutrients_fl ["rice", "dal", "bread"] ≠
      calculate_nutrients_fl ["rice", "bread", "dal"] := by
  constructor
  · exact List.Perm.cons _ (List.Perm.swap _ _ _)
  · decide

/-- C6 amended: float addition is commutative but not associative, so only
reorderings that perform the same additions are value-preserving — swapping
the two items of any two-element list never changes the totals, and in
particular aggregating `["rice","chicken"]` equals aggregating
`["chicken","rice"]`; permuting three or more items may change the result
(see the counterexample). -/
theorem calculate_nutrients_swap_two :
    (∀ x y : String,
      calculate_nutrients_fl [x, y] = calculate_nutrients_fl [y, x]) ∧
    calculate_nutrients_fl ["rice", "chicken"] =
      calculate_nutrients_fl ["chicken", "rice"] := by
  have main : ∀ x y : String,
      calculate_nutrients_fl [x, y] = calculate_nutrients_fl [y, x] := by
    intro x y
    simp only [calculate_nutrients_fl, List.foldl_cons, List.foldl_nil]
    cases hx : lookupFoodFl (pyStrip (pyLower x)) with
    | none =>
      cases hy : lookupFoodFl (pyStrip (pyLower y)) <;> simp [hx, hy]
    | some cx =>
      cases hy : lookupFoodFl (pyStrip (pyLower y)) with
      | none => simp [hx, hy]
      | some cy =>
        simp only [hx, hy]
        rw [lookupFoodFl_zero_left hx, lookupFoodFl_zero_left hy,
          addS_comm cx cy]
  exact ⟨main, main "rice" "chicken"⟩

/-! ## The BMR calculator -/

/-- C2: for positive inputs, `calculate_bmr` returns the Harris-Benedict
value of §4.1, rounded to two decimals, for each of the two genders. -/
theorem calculate_bmr_matches_formula :
    ∀ (weight height : ℚ) (age : ℤ),
      0 < weight → 0 < height → 0 < age →
      calculate_bmr weight height age "male" =
        .ok (round2 (88.362 + (13.397 * weight) + (4.799 * height) -
          (5.677 * (age : ℚ)))) ∧
      calculate_bmr weight height age "female" =
        .ok (round2 (447.593 + (9.247 * weight) + (3.098 * height) -
          (4.33 * (age : ℚ)))) := by
  intro weight height age _ _ _
  exact ⟨rfl, rfl⟩

theorem calculate_bmr_matches_formula_witness :
    calculate_bmr 70 170 25 "male" =
      .ok (round2 (88.362 + (13.397 * 70) + (4.799 * 170) -
        (5.677 * ((25 : ℤ) : ℚ)))) :=
  (calculate_bmr_matches_formula 70 170 25 (by decide) (by decide)
    (by decide)).1

/-- C8 fails as stated: `"Male"` differs from both `"male"` and `"female"`,
yet `calculate_bmr` succeeds on it (the source dispatches on
`gender.lower()`), instead of failing with `InvalidGender`. -/
theorem calculate_bmr_gender_counterexample :
    ("Male" : String) ≠ "male" ∧ ("Male" : String) ≠ "female" ∧
    calculate_bmr 70 170 25 "Male" = .ok (bmr_male 70 170 25) :=
  ⟨by decide, by decide, rfl⟩

/-- C8 amended: for every gender whose lowercased form is neither `"male"`
nor `"female"`, `calculate_bmr` fails with `InvalidGender`.  (Purity and
determinism are definitional here: the source function reads and writes no
state, and is embedded as a pure function of its four arguments.) -/
theorem calculate_bmr_invalid_gender :
    ∀ (weight height : ℚ) (age : ℤ) (gender : String),
      pyLower gender ≠ "male" → pyLower gender ≠ "female" →
      calculate_bmr weight height age gender = .error .invalidGender := by
  intro weight height age gender h1 h2
  simp [calculate_bmr, h1, h2]

theorem calculate_bmr_invalid_gender_witness :
    calculate_bmr 70 170 25 "unknown" = .error .invalidGender :=
  calculate_bmr_invalid_gender 70 170 25 "unknown" (by decide) (by decide)

/-! ## The command parser -/

theorem parse_message_of_no_prefix {msg : String}
    (h : ¬ pyStartsWith (pyStrip msg) "log ") :
    parse_message msg = .error .invalidFormat := by
  simp [parse_message, h]

theorem parse_message_of_no_colon {msg : String}
    (h1 : pyStartsWith (pyStrip msg) "log ")
    (h2 : ':' ∉ (pyDrop (pyStrip msg) 4).data) :
    parse_message msg = .error .invalidFormat := by
  simp [parse_message, splitFirstColon, h1, h2]

theorem parse_message_of_colon_ne_invalid_format {msg : String}
    (h1 : pyStartsWith (pyStrip msg) "log ")
    (h2 : ':' ∈ (pyDrop (pyStrip msg) 4).data) :
    parse_message msg ≠ .error .invalidFormat := by
  unfold parse_message splitFirstColon
  simp only [h1, not_true, if_pos h2, if_false]
  split
  · simp
  · split <;> simp

/-- C3 fails as stated: `"log :rice"` has an empty part left of its first
colon, so the claim requires `InvalidFormat`, but the source's
`split(":", 1)` still yields two parts and the handler proceeds to reject
the empty (hence invalid) meal category with `InvalidMealType` instead. -/
theorem parse_message_invalid_format_counterexample :
    pyStartsWith (pyStrip "log :rice") "log " = true ∧
    splitFirstColon (pyDrop (pyStrip "log :rice") 4) = some ("", "rice") ∧
    parse_message "log :rice" = .error .invalidMealType ∧
    parse_message "log :rice" ≠ .error .invalidFormat := by
  refine ⟨rfl, rfl, rfl, ?_⟩
  intro h
  rw [show parse_message "log :rice" = .error .invalidMealType from rfl] at h
  simp at h

/-- C3 amended: the parser fails with `InvalidFormat` exactly when the
whitespace-stripped message does not start with `"log "`, or the remainder
after that prefix contains no colon.  (A colon with an empty part on either
side passes the format check and instead yields `InvalidMealType` or
`NoFoodItems` downstream.) -/
theorem parse_message_invalid_format_iff :
    ∀ msg : String,
      parse_message msg = .error .invalidFormat ↔
        (¬ pyStartsWith (pyStrip msg) "log " ∨
         ':' ∉ (pyDrop (pyStrip msg) 4).data) := by
  intro msg
  constructor
  · intro h
    by_cases h1 : pyStartsWith (pyStrip msg) "log "
    · by_cases h2 : ':' ∈ (pyDrop (pyStrip msg) 4).data
      · exact absurd h (parse_message_of_colon_ne_invalid_format h1 h2)
      · exact Or.inr h2
    · exact Or.inl h1
  · intro h
    rcases h with h | h
    · exact parse_message_of_no_prefix h
    · by_cases h1 : pyStartsWith (pyStrip msg) "log "
      · exact parse_message_of_no_colon h1 h
      · exact parse_message_of_no_prefix h1

theorem parse_message_invalid_format_iff_witness :
    parse_message "log nocolon" = .error .invalidFormat ∧
    parse_message "hi there" = .error .invalidFormat :=
  ⟨(parse_message_invalid_format_iff "log nocolon").mpr (Or.inr (by decide)),
   (parse_message_invalid_format_iff "hi there").mpr (Or.inl (by decide))⟩

/-- C4: on every accepted message the returned food items are the right part
of the first-colon split, comma-split, trimmed, with empty tokens dropped
and original casing and split order kept; once the format and meal-type
checks pass, `NoFoodItems` occurs exactly when no token survives; and
`"log lunch:rice,,dal"` parses to `["rice","dal"]`. -/
theorem parse_message_food_items :
    (∀ (msg : String) (res : String × List String),
      parse_message msg = .ok res →
      ∃ l r, splitFirstColon (pyDrop (pyStrip msg) 4) = some (l, r) ∧
        res.2 = ((splitOnChar ',' (pyStrip r)).map pyStrip).filter
          (fun t => t ≠ "") ∧
        res.2 ≠ []) ∧
    (∀ (msg l r : String),
      pyStartsWith (pyStrip msg) "log " →
      splitFirstColon (pyDrop (pyStrip msg) 4) = some (l, r) →
      pyLower (pyStrip l) ∈ valid_meals →
      (parse_message msg = .error .noFoodItems ↔
        ((splitOnChar ',' (pyStrip r)).map pyStrip).filter
          (fun t => t ≠ "") = [])) ∧
    parse_message "log lunch:rice,,dal" = .ok ("lunch", ["rice", "dal"]) := by
  refine ⟨?_, ?_, rfl⟩
  · intro msg res h
    unfold parse_message at h
    by_cases h1 : pyStartsWith (pyStrip msg) "log "
    · simp only [h1, not_true, if_false] at h
      cases hsplit : splitFirstColon (pyDrop (pyStrip msg) 4) with
      | none => rw [hsplit] at h; exact absurd h (by simp)
      | some p =>
        obtain ⟨l, r⟩ := p
        rw [hsplit] at h
        simp only at h
        refine ⟨l, r, rfl, ?_⟩
        by_cases h3 : pyLower (pyStrip l) ∈ valid_meals
        · simp only [h3, not_true, if_false] at h
          by_cases h4 :
              ((splitOnChar ',' (pyStrip r)).map pyStrip).filter
                (fun t => t ≠ "") = []
          · rw [if_pos h4] at h; exact absurd h (by simp)
          · rw [if_neg h4] at h
            have := (Except.ok.inj h).symm
            subst this
            exact ⟨rfl, h4⟩
        · simp [h3] at h
    · simp [h1] at h
  · intro msg l r h1 hsplit h3
    unfold parse_message
    simp only [h1, not_true, if_false, hsplit]
    simp only [h3, not_true, if_false]
    by_cases h4 :
        ((splitOnChar ',' (pyStrip r)).map pyStrip).filter
          (fun t => t ≠ "") = []
    · rw [if_pos h4]; exact iff_of_true rfl h4
    · rw [if_neg h4]; exact iff_of_false (by simp) h4

theorem parse_message_food_items_witness :
    parse_message "log dinner: ,  ," = .error .noFoodItems :=
  ((parse_message_food_items.2.1 "log dinner: ,  ," "dinner" " ,  ,"
    rfl rfl (by decide)).mpr rfl)

/-! ## Dictionary lemmas -/

theorem insertA_of_lookup_none {α : Type} {l : List (String × α)} {k : String}
    (v : α) (h : lookupA l k = none) : insertA l k v = l ++ [(k, v)] := by
  induction l with
  | nil => rfl
  | cons p t ih =>
    obtain ⟨k', v'⟩ := p
    unfold lookupA at h
    by_cases hk : k' = k
    · rw [if_pos hk] at h; exact absurd h (by simp)
    · rw [if_neg hk] at h
      unfold insertA
      rw [if_neg hk, ih h]
      simp

theorem lookupA_append_left {α : Type} {l : List (String × α)} {k : String}
    {v : α} (l' : List (String × α)) (h : lookupA l k = some v) :
    lookupA (l ++ l') k = some v := by
  induction l with
  | nil => simp [lookupA] at h
  | cons p t ih =>
    obtain ⟨k', v'⟩ := p
    simp only [lookupA, List.cons_append] at h ⊢
    by_cases hk : k' = k
    · rwa [if_pos hk] at h ⊢
    · rw [if_neg hk] at h ⊢; exact ih h

theorem lookupA_append_right_self {α : Type} {l : List (String × α)}
    {k : String} (h : lookupA l k = none) (v : α) :
    lookupA (l ++ [(k, v)]) k = some v := by
  induction l with
  | nil => simp [lookupA]
  | cons p t ih =>
    obtain ⟨k', v'⟩ := p
    simp only [lookupA, List.cons_append] at h ⊢
    by_cases hk : k' = k
    · rw [if_pos hk] at h; exact absurd h (by simp)
    · rw [if_neg hk] at h ⊢; exact ih h

/-- C7: the structured path rejects an unregistered user with `UserNotFound`
and leaves the state untouched (the last-but-one conjunct states the
meal-ledger part verbatim: nothing is appended); the free-text path never
produces `UserNotFound` — when `"webhook_user"` is absent it is appended
with the fixed placeholder record, when present the user registry is left
exactly as it was, and (final conjunct) after any successful webhook call
the `"webhook_user"` identity is present in the registry. -/
theorem ingestion_user_handling :
    (∀ (s : State) (now : DateTime) (user meal : String)
        (items : List String),
      lookupA s.users user = none →
      log_meals s now user meal items = (.error .userNotFound, s)) ∧
    (∀ (s : State) (now : DateTime) (msg : String),
      (webhook_handler s now msg).1 ≠ .error .userNotFound) ∧
    (∀ (s : State) (now : DateTime) (msg : String)
        (res : String × List String),
      parse_message msg = .ok res →
      lookupA s.users "webhook_user" = none →
      (webhook_handler s now msg).2.users =
        s.users ++ [("webhook_user", default_webhook_user now)]) ∧
    (∀ (s : State) (now : DateTime) (msg : String)
        (res : String × List String) (u : User),
      parse_message msg = .ok res →
      lookupA s.users "webhook_user" = some u →
      (webhook_handler s now msg).2.users = s.users) ∧
    (∀ (s : State) (now : DateTime) (user meal : String)
        (items : List String),
      lookupA s.users user = none →
      ((log_meals s now user meal items).2).meals = s.meals) ∧
    (∀ (s : State) (now : DateTime) (msg : String)
        (res : String × List String),
      parse_message msg = .ok res →
      lookupA (webhook_handler s now msg).2.users "webhook_user" ≠ none) := by
  have hne : ∀ msg : String, parse_message msg ≠ .error .userNotFound := by
    intro msg
    simp only [parse_message]
    split
    · simp
    · split
      · simp
      · split
        · simp
        · split <;> simp
  have h1 : ∀ (s : State) (now : DateTime) (user meal : String)
      (items : List String),
      lookupA s.users user = none →
      log_meals s now user meal items = (.error .userNotFound, s) := by
    intro s now user meal items h
    simp [log_meals, h]
  have h3 : ∀ (s : State) (now : DateTime) (msg : String)
      (res : String × List String),
      parse_message msg = .ok res →
      lookupA s.users "webhook_user" = none →
      (webhook_handler s now msg).2.users =
        s.users ++ [("webhook_user", default_webhook_user now)] := by
    intro s now msg res hp h
    unfold webhook_handler
    rw [hp]
    simp only [h, Option.isNone_none, if_pos]
    exact insertA_of_lookup_none _ h
  have h4 : ∀ (s : State) (now : DateTime) (msg : String)
      (res : String × List String) (u : User),
      parse_message msg = .ok res →
      lookupA s.users "webhook_user" = some u →
      (webhook_handler s now msg).2.users = s.users := by
    intro s now msg res u hp h
    unfold webhook_handler
    rw [hp]
    simp [h]
  refine ⟨h1, ?_, h3, h4, ?_, ?_⟩
  · intro s now msg
    unfold webhook_handler
    cases hp : parse_message msg with
    | error e =>
      simp only
      intro hcontra
      rw [Except.error.inj hcontra] at hp
      exact hne msg hp
    | ok r => simp
  · intro s now user meal items h
    rw [h1 s now user meal items h]
  · intro s now msg res hp
    cases hw : lookupA s.users "webhook_user" with
    | none =>
      rw [h3 s now msg res hp hw,
        lookupA_append_right_self hw (default_webhook_user now)]
      simp
    | some u =>
      rw [h4 s now msg res u hp hw, hw]
      simp

theorem ingestion_user_handling_witness :
    log_meals State.empty ⟨⟨2024, 5, 1⟩, 100⟩ "ghost" "lunch" ["rice"] =
      (.error .userNotFound, State.empty) ∧
    (webhook_handler State.empty ⟨⟨2024, 5, 1⟩, 100⟩ "log lunch:rice").1 ≠
      .error .userNotFound ∧
    (webhook_handler State.empty ⟨⟨2024, 5, 1⟩, 100⟩ "log lunch:rice").2.users =
      [] ++ [("webhook_user", default_webhook_user ⟨⟨2024, 5, 1⟩, 100⟩)] ∧
    (webhook_handler
        ⟨[("webhook_user", default_webhook_user ⟨⟨2024, 1, 1⟩, 7⟩)], []⟩
        ⟨⟨2024, 5, 1⟩, 100⟩ "log lunch:rice").2.users =
      [("webhook_user", default_webhook_user ⟨⟨2024, 1, 1⟩, 7⟩)] ∧
    ((log_meals State.empty ⟨⟨2024, 5, 1⟩, 100⟩ "ghost" "lunch"
        ["rice"]).2).meals = State.empty.meals ∧
    lookupA (webhook_handler State.empty ⟨⟨2024, 5, 1⟩, 100⟩
        "log lunch:rice").2.users "webhook_user" ≠ none :=
  ⟨ingestion_user_handling.1 State.empty ⟨⟨2024, 5, 1⟩, 100⟩ "ghost" "lunch"
      ["rice"] rfl,
   ingestion_user_handling.2.1 State.empty ⟨⟨2024, 5, 1⟩, 100⟩ "log lunch:rice",
   ingestion_user_handling.2.2.1 State.empty ⟨⟨2024, 5, 1⟩, 100⟩
      "log lunch:rice" ("lunch", ["rice"]) rfl rfl,
   ingestion_user_handling.2.2.2.1
      ⟨[("webhook_user", default_webhook_user ⟨⟨2024, 1, 1⟩, 7⟩)], []⟩
      ⟨⟨2024, 5, 1⟩, 100⟩ "log lunch:rice" ("lunch", ["rice"])
      (default_webhook_user ⟨⟨2024, 1, 1⟩, 7⟩) rfl rfl,
   ingestion_user_handling.2.2.2.2.1 State.empty ⟨⟨2024, 5, 1⟩, 100⟩
      "ghost" "lunch" ["rice"] rfl,
   ingestion_user_handling.2.2.2.2.2 State.empty ⟨⟨2024, 5, 1⟩, 100⟩
      "log lunch:rice" ("lunch", ["rice"]) rfl⟩

theorem digitsToNat_append_singleton (l : List Char) (c : Char) :
    digitsToNat (l ++ [c]) = 10 * digitsToNat l + (c.toNat - 48) := by
  unfold digitsToNat
  rw [List.foldl_append]
  rfl

theorem digitChar_toNat_sub (m : ℕ) (h : m < 10) :
    (Nat.digitChar m).toNat - 48 = m := by
  interval_cases m <;> rfl

theorem digitChar_ne_underscore (m : ℕ) (h : m < 10) :
    Nat.digitChar m ≠ '_' := by
  interval_cases m <;> decide

theorem natDigitsAux_spec :
    ∀ fuel n, n < fuel →
      digitsToNat (natDigitsAux fuel n) = n ∧
      ∀ c ∈ natDigitsAux fuel n, c ≠ '_' := by
  intro fuel
  induction fuel with
  | zero => omega
  | succ fuel ih =>
    intro n hn
    unfold natDigitsAux
    by_cases h10 : n < 10
    · rw [if_pos h10]
      refine ⟨?_, ?_⟩
      · show digitsToNat ([] ++ [Nat.digitChar n]) = n
        rw [digitsToNat_append_singleton, digitChar_toNat_sub n h10]
        show 10 * 0 + n = n
        omega
      · intro c hc
        rw [List.mem_singleton] at hc
        subst hc
        exact digitChar_ne_underscore n h10
    · rw [if_neg h10]
      have hdiv : n / 10 < fuel := by
        have h1 : n / 10 < n := Nat.div_lt_self (by omega) (by omega)
        omega
      obtain ⟨ihv, ihc⟩ := ih (n / 10) hdiv
      refine ⟨?_, ?_⟩
      · rw [digitsToNat_append_singleton, ihv,
          digitChar_toNat_sub (n % 10) (Nat.mod_lt n (by omega))]
        omega
      · intro c hc
        rw [List.mem_append] at hc
        rcases hc with hc | hc
        · exact ihc c hc
        · rw [List.mem_singleton] at hc
          subst hc
          exact digitChar_ne_underscore (n % 10) (Nat.mod_lt n (by omega))

theorem digitsToNat_natDigits (n : ℕ) : digitsToNat (natDigits n) = n :=
  (natDigitsAux_spec (n + 1) n (Nat.lt_succ_self n)).1

theorem natDigits_ne_underscore (n : ℕ) : ∀ c ∈ natDigits n, c ≠ '_' :=
  (natDigitsAux_spec (n + 1) n (Nat.lt_succ_self n)).2

theorem natDigits_inj {n m : ℕ} (h : natDigits n = natDigits m) : n = m := by
  have := congrArg digitsToNat h
  rwa [digitsToNat_natDigits, digitsToNat_natDigits] at this

theorem append_underscore_inj :
    ∀ (xs xs' ys ys' : List Char), '_' ∉ xs → '_' ∉ xs' →
      xs ++ '_' :: ys = xs' ++ '_' :: ys' → xs = xs' ∧ ys = ys' := by
  intro xs
  induction xs with
  | nil =>
    intro xs' ys ys' _ hx' h
    cases xs' with
    | nil => simpa using h
    | cons a t =>
      simp only [List.nil_append, List.cons_append, List.cons.injEq] at h
      exact absurd (h.1.symm ▸ List.mem_cons_self a t) hx'
  | cons a t ih =>
    intro xs' ys ys' hx hx' h
    cases xs' with
    | nil =>
      simp only [List.nil_append, List.cons_append, List.cons.injEq] at h
      exact absurd (h.1 ▸ List.mem_cons_self a t) hx
    | cons a' t' =>
      simp only [List.cons_append, List.cons.injEq] at h
      obtain ⟨ha, ht⟩ := h
      have hx2 : '_' ∉ t := fun hm => hx (List.mem_cons_of_mem a hm)
      have hx2' : '_' ∉ t' := fun hm => hx' (List.mem_cons_of_mem a' hm)
      obtain ⟨h1, h2⟩ := ih t' ys ys' hx2 hx2' ht
      exact ⟨by rw [ha, h1], h2⟩

theorem mkUserId_data (n ts : ℕ) :
    (mkUserId n ts).data =
      'u' :: 's' :: 'e' :: 'r' :: '_' :: (natDigits n ++ '_' :: natDigits ts) := by
  simp only [mkUserId, natStr, String.data_append,
    show ("user_" : String).data = ['u', 's', 'e', 'r', '_'] from rfl,
    show ("_" : String).data = ['_'] from rfl,
    show ∀ l : List Char, (String.mk l).data = l from fun _ => rfl]
  simp

theorem mkMealId_data (n ts : ℕ) :
    (mkMealId n ts).data =
      'm' :: 'e' :: 'a' :: 'l' :: '_' :: (natDigits n ++ '_' :: natDigits ts) := by
  simp only [mkMealId, natStr, String.data_append,
    show ("meal_" : String).data = ['m', 'e', 'a', 'l', '_'] from rfl,
    show ("_" : String).data = ['_'] from rfl,
    show ∀ l : List Char, (String.mk l).data = l from fun _ => rfl]
  simp

theorem mkWebhookMealId_data (n ts : ℕ) :
    (mkWebhookMealId n ts).data =
      'w' :: 'e' :: 'b' :: 'h' :: 'o' :: 'o' :: 'k' :: '_' :: 'm' :: 'e' ::
        'a' :: 'l' :: '_' :: (natDigits n ++ '_' :: natDigits ts) := by
  simp only [mkWebhookMealId, natStr, String.data_append,
    show ("webhook_meal_" : String).data =
      ['w', 'e', 'b', 'h', 'o', 'o', 'k', '_', 'm', 'e', 'a', 'l', '_'] from rfl,
    show ("_" : String).data = ['_'] from rfl,
    show ∀ l : List Char, (String.mk l).data = l from fun _ => rfl]
  simp

theorem mkUserId_inj {n ts m ts' : ℕ} (h : mkUserId n ts = mkUserId m ts') :
    n = m := by
  have hd := congrArg String.data h
  rw [mkUserId_data, mkUserId_data] at hd
  simp only [List.cons.injEq, true_and] at hd
  exact natDigits_inj (append_underscore_inj _ _ _ _
    (fun hm => natDigits_ne_underscore n '_' hm rfl)
    (fun hm => natDigits_ne_underscore m '_' hm rfl) hd).1

theorem mkMealId_inj {n ts m ts' : ℕ} (h : mkMealId n ts = mkMealId m ts') :
    n = m := by
  have hd := congrArg String.data h
  rw [mkMealId_data, mkMealId_data] at hd
  simp only [List.cons.injEq, true_and] at hd
  exact natDigits_inj (append_underscore_inj _ _ _ _
    (fun hm => natDigits_ne_underscore n '_' hm rfl)
    (fun hm => natDigits_ne_underscore m '_' hm rfl) hd).1

theorem mkWebhookMealId_inj {n ts m ts' : ℕ}
    (h : mkWebhookMealId n ts = mkWebhookMealId m ts') : n = m := by
  have hd := congrArg String.data h
  rw [mkWebhookMealId_data, mkWebhookMealId_data] at hd
  simp only [List.cons.injEq, true_and] at hd
  exact natDigits_inj (append_underscore_inj _ _ _ _
    (fun hm => natDigits_ne_underscore n '_' hm rfl)
    (fun hm => natDigits_ne_underscore m '_' hm rfl) hd).1

theorem mkMealId_ne_mkWebhookMealId (n ts m ts' : ℕ) :
    mkMealId n ts ≠ mkWebhookMealId m ts' := by
  intro h
  have hd := congrArg String.data h
  rw [mkMealId_data, mkWebhookMealId_data] at hd
  simp at hd

theorem mkUserId_ne_webhook_user (n ts : ℕ) :
    mkUserId n ts ≠ "webhook_user" := by
  intro h
  have hd := congrArg String.data h
  rw [mkUserId_data] at hd
  simp [show ("webhook_user" : String).data =
    ['w', 'e', 'b', 'h', 'o', 'o', 'k', '_', 'u', 's', 'e', 'r'] from rfl] at hd

/-! ## The status query -/

theorem status_foldl (a : Nutrients) (l : List Meal) :
    l.foldl (fun acc m => acc + m.nutrients) a =
      a + (l.map Meal.nutrients).sum := by
  induction l generalizing a with
  | nil => simp
  | cons x xs ih => simp [ih, add_assoc]

/-- C1: for every registered user the status query returns the fieldwise sum
of the frozen nutrient totals of exactly the ledger meals owned by that
user, and their count; in particular, registering a user and logging two
meals for them yields totals `calculate_nutrients items1 +
calculate_nutrients items2` and `total_meals = 2`. -/
theorem status_aggregates_meals :
    (∀ (s : State) (user : String) (u : User),
      lookupA s.users user = some u →
      get_user_status s user =
        .ok ⟨u.name, u.bmr, ((mealsFor s user).map Meal.nutrients).sum,
             (mealsFor s user).length⟩) ∧
    (∀ (d : UserRegistration) (b : ℚ) (t1 t2 t3 : DateTime)
        (meal1 meal2 : String) (items1 items2 : List String),
      calculate_bmr d.weight d.height d.age d.gender = .ok b →
      pyLower meal1 ∈ valid_meals →
      pyLower meal2 ∈ valid_meals →
      get_user_status
        ((log_meals
          ((log_meals ((register_user State.empty t1 d).2) t2
            (mkUserId 1 t1.epoch) meal1 items1).2) t3
          (mkUserId 1 t1.epoch) meal2 items2).2)
        (mkUserId 1 t1.epoch) =
        .ok ⟨d.name, b,
             calculate_nutrients items1 + calculate_nutrients items2, 2⟩) := by
  constructor
  · intro s user u hu
    unfold get_user_status
    rw [hu]
    simp [status_foldl]
  · intro d b t1 t2 t3 meal1 meal2 items1 items2 hb hm1 hm2
    have h1 : (register_user State.empty t1 d).2 =
        ⟨[(mkUserId 1 t1.epoch,
           ⟨d.name, d.age, d.weight, d.height, d.gender, d.goal, b, t1⟩)],
         []⟩ := by
      simp [register_user, hb, State.empty, insertA]
    rw [h1]
    have h2 : (log_meals
        (⟨[(mkUserId 1 t1.epoch,
            ⟨d.name, d.age, d.weight, d.height, d.gender, d.goal, b, t1⟩)],
          []⟩ : State) t2 (mkUserId 1 t1.epoch) meal1 items1).2 =
        ⟨[(mkUserId 1 t1.epoch,
           ⟨d.name, d.age, d.weight, d.height, d.gender, d.goal, b, t1⟩)],
         [(mkMealId 1 t2.epoch,
           ⟨mkUserId 1 t1.epoch, pyLower meal1, items1, t2,
            calculate_nutrients items1⟩)]⟩ := by
      simp [log_meals, lookupA, hm1, insertA]
    rw [h2]
    have hne : mkMealId 1 t2.epoch ≠ mkMealId 2 t3.epoch := by
      intro h
      have := mkMealId_inj h
      omega
    have h3 : (log_meals
        (⟨[(mkUserId 1 t1.epoch,
            ⟨d.name, d.age, d.weight, d.height, d.gender, d.goal, b, t1⟩)],
          [(mkMealId 1 t2.epoch,
            ⟨mkUserId 1 t1.epoch, pyLower meal1, items1, t2,
             calculate_nutrients items1⟩)]⟩ : State) t3
        (mkUserId 1 t1.epoch) meal2 items2).2 =
        ⟨[(mkUserId 1 t1.epoch,
           ⟨d.name, d.age, d.weight, d.height, d.gender, d.goal, b, t1⟩)],
         [(mkMealId 1 t2.epoch,
           ⟨mkUserId 1 t1.epoch, pyLower meal1, items1, t2,
            calculate_nutrients items1⟩),
          (mkMealId 2 t3.epoch,
           ⟨mkUserId 1 t1.epoch, pyLower meal2, items2, t3,
            calculate_nutrients items2⟩)]⟩ := by
      simp [log_meals, lookupA, hm2, insertA, hne]
    rw [h3]
    simp [get_user_status, lookupA, mealsFor, status_foldl]

theorem status_aggregates_meals_witness :
    get_user_status
      ((log_meals
        ((log_meals
          ((register_user State.empty ⟨⟨2024, 5, 1⟩, 10⟩
            ⟨"Alice", 30, 60, 165, "female", "fit"⟩).2)
          ⟨⟨2024, 5, 1⟩, 20⟩ (mkUserId 1 10) "lunch" ["rice"]).2)
        ⟨⟨2024, 5, 1⟩, 30⟩ (mkUserId 1 10) "dinner" ["dal"]).2)
      (mkUserId 1 10) =
      .ok ⟨"Alice", bmr_female 60 165 30,
           calculate_nutrients ["rice"] + calculate_nutrients ["dal"], 2⟩ :=
  status_aggregates_meals.2 ⟨"Alice", 30, 60, 165, "female", "fit"⟩
    (bmr_female 60 165 30) ⟨⟨2024, 5, 1⟩, 10⟩ ⟨⟨2024, 5, 1⟩, 20⟩
    ⟨⟨2024, 5, 1⟩, 30⟩ "lunch" "dinner" ["rice"] ["dal"]
    rfl (by decide) (by decide)

/-! ## Identifier freshness across request traces (C10)

A trace is a sequence of requests, each paired with the wall-clock instant
at which it runs (instants are arbitrary: they may repeat or go backwards).
Every generated identifier embeds `len(collection) + 1`; collections only
grow, one insertion per issued identifier, and the key inserted at position
`i` therefore embeds the counter `i + 1`.  This section proves that no
identifier is ever issued twice within a trace. -/

/-- One incoming request of the service. -/
inductive Op
  | register (d : UserRegistration)
  | logMeal (user meal : String) (items : List String)
  | webhook (message : String)

/-- Run one request; besides the new state, collect the identifiers the call
issued (the user id of a successful registration, the meal id of a
successful ingestion on either path). -/
def applyOp (s : State) (t : DateTime) : Op → State × List String × List String
  | .register d =>
    match register_user s t d with
    | (.ok r, s') => (s', [r.1], [])
    | (.error _, s') => (s', [], [])
  | .logMeal user meal items =>
    match log_meals s t user meal items with
    | (.ok r, s') => (s', [], [r.1])
    | (.error _, s') => (s', [], [])
  | .webhook msg =>
    match webhook_handler s t msg with
    | (.ok r, s') => (s', [], [r.1])
    | (.error _, s') => (s', [], [])

/-- Run a trace, collecting all issued user ids and meal ids in order. -/
def execTrace (s : State) :
    List (DateTime × Op) → State × List String × List String
  | [] => (s, [], [])
  | (t, op) :: rest =>
    let step := applyOp s t op
    let next := execTrace step.1 rest
    (next.1, step.2.1 ++ next.2.1, step.2.2 ++ next.2.2)

/-- Shape of the user registry: the key stored at position `base + i` (the
predicate is stated relative to a running offset) is either the fixed
webhook identity or a registration id embedding the counter `position + 1`. -/
def UsersInvFrom (base : ℕ) : List (String × User) → Prop
  | [] => True
  | (k, _) :: t =>
    (k = "webhook_user" ∨ ∃ ts, k = mkUserId (base + 1) ts) ∧
    UsersInvFrom (base + 1) t

/-- Shape of the meal ledger: the key at each position embeds the counter
`position + 1`, under either ingestion path's prefix. -/
def MealsInvFrom (base : ℕ) : List (String × Meal) → Prop
  | [] => True
  | (k, _) :: t =>
    ((∃ ts, k = mkMealId (base + 1) ts) ∨
     (∃ ts, k = mkWebhookMealId (base + 1) ts)) ∧
    MealsInvFrom (base + 1) t

theorem lookupA_ne_none_append {α : Type} {l : List (String × α)}
    {k : String} (l' : List (String × α)) (h : lookupA l k ≠ none) :
    lookupA (l ++ l') k ≠ none := by
  cases hl : lookupA l k with
  | none => exact absurd hl h
  | some v => rw [lookupA_append_left l' hl]; simp

theorem usersInvFrom_append :
    ∀ {b : ℕ} {l : List (String × User)}, UsersInvFrom b l →
      ∀ {k : String} (u : User),
        (k = "webhook_user" ∨ ∃ ts, k = mkUserId (b + l.length + 1) ts) →
        UsersInvFrom b (l ++ [(k, u)]) := by
  intro b l
  induction l generalizing b with
  | nil =>
    intro _ k u hk
    exact ⟨by simpa using hk, trivial⟩
  | cons p t ih =>
    intro h k u hk
    obtain ⟨hp, ht⟩ := h
    refine ⟨hp, ih ht u ?_⟩
    have harith : b + (p :: t).length + 1 = (b + 1) + t.length + 1 := by
      simp [List.length_cons]; omega
    rwa [harith] at hk

theorem mealsInvFrom_append :
    ∀ {b : ℕ} {l : List (String × Meal)}, MealsInvFrom b l →
      ∀ {k : String} (m : Meal),
        ((∃ ts, k = mkMealId (b + l.length + 1) ts) ∨
         (∃ ts, k = mkWebhookMealId (b + l.length + 1) ts)) →
        MealsInvFrom b (l ++ [(k, m)]) := by
  intro b l
  induction l generalizing b with
  | nil =>
    intro _ k m hk
    exact ⟨by simpa using hk, trivial⟩
  | cons p t ih =>
    intro h k m hk
    obtain ⟨hp, ht⟩ := h
    refine ⟨hp, ih ht m ?_⟩
    have harith : b + (p :: t).length + 1 = (b + 1) + t.length + 1 := by
      simp [List.length_cons]; omega
    rwa [harith] at hk

theorem usersInvFrom_fresh :
    ∀ {b : ℕ} {l : List (String × User)}, UsersInvFrom b l →
      ∀ {n : ℕ} (ts : ℕ), b + l.length < n →
        lookupA l (mkUserId n ts) = none := by
  intro b l
  induction l generalizing b with
  | nil => intro _ n ts _; rfl
  | cons p t ih =>
    intro h n ts hn
    obtain ⟨k, u⟩ := p
    obtain ⟨hk, ht⟩ := h
    simp only [lookupA]
    rw [if_neg ?_]
    · exact ih ht ts (by simp [List.length_cons] at hn ⊢; omega)
    · rcases hk with hk | ⟨ts', hk⟩
      · subst hk
        exact fun hc => mkUserId_ne_webhook_user n ts hc.symm
      · subst hk
        intro hc
        have := mkUserId_inj hc
        simp [List.length_cons] at hn
        omega

theorem mealsInvFrom_fresh_meal :
    ∀ {b : ℕ} {l : List (String × Meal)}, MealsInvFrom b l →
      ∀ {n : ℕ} (ts : ℕ), b + l.length < n →
        lookupA l (mkMealId n ts) = none := by
  intro b l
  induction l generalizing b with
  | nil => intro _ n ts _; rfl
  | cons p t ih =>
    intro h n ts hn
    obtain ⟨k, m⟩ := p
    obtain ⟨hk, ht⟩ := h
    simp only [lookupA]
    rw [if_neg ?_]
    · exact ih ht ts (by simp [List.length_cons] at hn ⊢; omega)
    · rcases hk with ⟨ts', hk⟩ | ⟨ts', hk⟩
      · subst hk
        intro hc
        have := mkMealId_inj hc
        simp [List.length_cons] at hn
        omega
      · subst hk
        exact fun hc => mkMealId_ne_mkWebhookMealId n ts (b + 1) ts' hc.symm

theorem mealsInvFrom_fresh_webhook :
    ∀ {b : ℕ} {l : List (String × Meal)}, MealsInvFrom b l →
      ∀ {n : ℕ} (ts : ℕ), b + l.length < n →
        lookupA l (mkWebhookMealId n ts) = none := by
  intro b l
  induction l generalizing b with
  | nil => intro _ n ts _; rfl
  | cons p t ih =>
    intro h n ts hn
    obtain ⟨k, m⟩ := p
    obtain ⟨hk, ht⟩ := h
    simp only [lookupA]
    rw [if_neg ?_]
    · exact ih ht ts (by simp [List.length_cons] at hn ⊢; omega)
    · rcases hk with ⟨ts', hk⟩ | ⟨ts', hk⟩
      · subst hk
        exact fun hc => mkMealId_ne_mkWebhookMealId (b + 1) ts' n ts hc
      · subst hk
        intro hc
        have := mkWebhookMealId_inj hc
        simp [List.length_cons] at hn
        omega

/-- One request preserves the registry/ledger shape invariants, issues only
identifiers that were fresh before the call and are present after it, and
never removes an existing key. -/
theorem applyOp_spec (s : State) (t : DateTime) (op : Op)
    (hu : UsersInvFrom 0 s.users) (hm : MealsInvFrom 0 s.meals) :
    UsersInvFrom 0 (applyOp s t op).1.users ∧
    MealsInvFrom 0 (applyOp s t op).1.meals ∧
    (applyOp s t op).2.1.Nodup ∧
    (applyOp s t op).2.2.Nodup ∧
    (∀ id ∈ (applyOp s t op).2.1,
      lookupA s.users id = none ∧
      lookupA (applyOp s t op).1.users id ≠ none) ∧
    (∀ id ∈ (applyOp s t op).2.2,
      lookupA s.meals id = none ∧
      lookupA (applyOp s t op).1.meals id ≠ none) ∧
    (∀ k, lookupA s.users k ≠ none →
      lookupA (applyOp s t op).1.users k ≠ none) ∧
    (∀ k, lookupA s.meals k ≠ none →
      lookupA (applyOp s t op).1.meals k ≠ none) := by
  cases op with
  | register d =>
    cases hbm : calculate_bmr d.weight d.height d.age d.gender with
    | error e =>
      have hred : applyOp s t (.register d) = (s, [], []) := by
        simp [applyOp, register_user, hbm]
      rw [hred]
      exact ⟨hu, hm, by simp, by simp, by simp, by simp,
        fun k h => h, fun k h => h⟩
    | ok b =>
      have hfresh :
          lookupA s.users (mkUserId (s.users.length + 1) t.epoch) = none :=
        usersInvFrom_fresh hu t.epoch (by omega)
      have hred : applyOp s t (.register d) =
          (⟨s.users ++ [(mkUserId (s.users.length + 1) t.epoch,
              ⟨d.name, d.age, d.weight, d.height, d.gender, d.goal, b, t⟩)],
            s.meals⟩,
           [mkUserId (s.users.length + 1) t.epoch], []) := by
        simp [applyOp, register_user, hbm, insertA_of_lookup_none _ hfresh]
      rw [hred]
      refine ⟨?_, hm, by simp, by simp, ?_, by simp, ?_, fun k h => h⟩
      · exact usersInvFrom_append hu _ (Or.inr ⟨t.epoch, by rw [Nat.zero_add]⟩)
      · intro id hid
        rw [List.mem_singleton] at hid
        subst hid
        exact ⟨hfresh, by rw [lookupA_append_right_self hfresh]; simp⟩
      · intro k h
        exact lookupA_ne_none_append _ h
  | logMeal user meal items =>
    by_cases h1 : (lookupA s.users user).isNone
    · have hred : applyOp s t (.logMeal user meal items) = (s, [], []) := by
        simp [applyOp, log_meals, h1]
      rw [hred]
      exact ⟨hu, hm, by simp, by simp, by simp, by simp,
        fun k h => h, fun k h => h⟩
    · by_cases h2 : pyLower meal ∉ valid_meals
      · have hred : applyOp s t (.logMeal user meal items) = (s, [], []) := by
          simp [applyOp, log_meals, h1, h2]
        rw [hred]
        exact ⟨hu, hm, by simp, by simp, by simp, by simp,
          fun k h => h, fun k h => h⟩
      · have hfresh :
            lookupA s.meals (mkMealId (s.meals.length + 1) t.epoch) = none :=
          mealsInvFrom_fresh_meal hm t.epoch (by omega)
        have hred : applyOp s t (.logMeal user meal items) =
            (⟨s.users, s.meals ++ [(mkMealId (s.meals.length + 1) t.epoch,
                ⟨user, pyLower meal, items, t, calculate_nutrients items⟩)]⟩,
             [], [mkMealId (s.meals.length + 1) t.epoch]) := by
          simp [applyOp, log_meals, h1, h2, insertA_of_lookup_none _ hfresh]
        rw [hred]
        refine ⟨hu, ?_, by simp, by simp, by simp, ?_, fun k h => h, ?_⟩
        · exact mealsInvFrom_append hm _
            (Or.inl ⟨t.epoch, by rw [Nat.zero_add]⟩)
        · intro id hid
          rw [List.mem_singleton] at hid
          subst hid
          exact ⟨hfresh, by rw [lookupA_append_right_self hfresh]; simp⟩
        · intro k h
          exact lookupA_ne_none_append _ h
  | webhook msg =>
    cases hp : parse_message msg with
    | error e =>
      have hred : applyOp s t (.webhook msg) = (s, [], []) := by
        simp [applyOp, webhook_handler, hp]
      rw [hred]
      exact ⟨hu, hm, by simp, by simp, by simp, by simp,
        fun k h => h, fun k h => h⟩
    | ok r =>
      obtain ⟨mt, fi⟩ := r
      have hfresh :
          lookupA s.meals
            (mkWebhookMealId (s.meals.length + 1) t.epoch) = none :=
        mealsInvFrom_fresh_webhook hm t.epoch (by omega)
      by_cases hw : (lookupA s.users "webhook_user").isNone
      · have hwnone : lookupA s.users "webhook_user" = none :=
          Option.isNone_iff_eq_none.mp hw
        have hred : applyOp s t (.webhook msg) =
            (⟨s.users ++ [("webhook_user", default_webhook_user t)],
              s.meals ++ [(mkWebhookMealId (s.meals.length + 1) t.epoch,
                ⟨"webhook_user", mt, fi, t, calculate_nutrients fi⟩)]⟩,
             [], [mkWebhookMealId (s.meals.length + 1) t.epoch]) := by
          simp [applyOp, webhook_handler, hp, hw,
            insertA_of_lookup_none _ hwnone,
            insertA_of_lookup_none _ hfresh]
        rw [hred]
        refine ⟨?_, ?_, by simp, by simp, by simp, ?_, ?_, ?_⟩
        · exact usersInvFrom_append hu _ (Or.inl rfl)
        · exact mealsInvFrom_append hm _
            (Or.inr ⟨t.epoch, by rw [Nat.zero_add]⟩)
        · intro id hid
          rw [List.mem_singleton] at hid
          subst hid
          exact ⟨hfresh, by rw [lookupA_append_right_self hfresh]; simp⟩
        · intro k h
          exact lookupA_ne_none_append _ h
        · intro k h
          exact lookupA_ne_none_append _ h
      · have hred : applyOp s t (.webhook msg) =
            (⟨s.users, s.meals ++ [(mkWebhookMealId (s.meals.length + 1)
                t.epoch, ⟨"webhook_user", mt, fi, t,
                  calculate_nutrients fi⟩)]⟩,
             [], [mkWebhookMealId (s.meals.length + 1) t.epoch]) := by
          simp [applyOp, webhook_handler, hp, hw,
            insertA_of_lookup_none _ hfresh]
        rw [hred]
        refine ⟨hu, ?_, by simp, by simp, by simp, ?_, fun k h => h, ?_⟩
        · exact mealsInvFrom_append hm _
            (Or.inr ⟨t.epoch, by rw [Nat.zero_add]⟩)
        · intro id hid
          rw [List.mem_singleton] at hid
          subst hid
          exact ⟨hfresh, by rw [lookupA_append_right_self hfresh]; simp⟩
        · intro k h
          exact lookupA_ne_none_append _ h

/-- Trace-level invariant: along any trace the registry/ledger shapes are
preserved, the issued identifier lists are duplicate-free, every issued
identifier was fresh at the start of the trace and is a key at its end, and
existing keys persist. -/
theorem execTrace_spec :
    ∀ (ops : List (DateTime × Op)) (s : State),
      UsersInvFrom 0 s.users → MealsInvFrom 0 s.meals →
      UsersInvFrom 0 (execTrace s ops).1.users ∧
      MealsInvFrom 0 (execTrace s ops).1.meals ∧
      (execTrace s ops).2.1.Nodup ∧
      (execTrace s ops).2.2.Nodup ∧
      (∀ id ∈ (execTrace s ops).2.1,
        lookupA s.users id = none ∧
        lookupA (execTrace s ops).1.users id ≠ none) ∧
      (∀ id ∈ (execTrace s ops).2.2,
        lookupA s.meals id = none ∧
        lookupA (execTrace s ops).1.meals id ≠ none) ∧
      (∀ k, lookupA s.users k ≠ none →
        lookupA (execTrace s ops).1.users k ≠ none) ∧
      (∀ k, lookupA s.meals k ≠ none →
        lookupA (execTrace s ops).1.meals k ≠ none) := by
  intro ops
  induction ops with
  | nil =>
    intro s hu hm
    exact ⟨hu, hm, List.nodup_nil, List.nodup_nil, by simp [execTrace],
      by simp [execTrace], fun k h => h, fun k h => h⟩
  | cons p rest ih =>
    intro s hu hm
    obtain ⟨t, op⟩ := p
    obtain ⟨hu1, hm1, hnd1u, hnd1m, hiss1u, hiss1m, hmonu1, hmonm1⟩ :=
      applyOp_spec s t op hu hm
    obtain ⟨hu2, hm2, hnd2u, hnd2m, hiss2u, hiss2m, hmonu2, hmonm2⟩ :=
      ih (applyOp s t op).1 hu1 hm1
    simp only [execTrace]
    refine ⟨hu2, hm2, ?_, ?_, ?_, ?_, ?_, ?_⟩
    · refine List.Nodup.append hnd1u hnd2u ?_
      intro a ha1 ha2
      exact absurd (hiss2u a ha2).1 (fun h => (hiss1u a ha1).2 h)
    · refine List.Nodup.append hnd1m hnd2m ?_
      intro a ha1 ha2
      exact absurd (hiss2m a ha2).1 (fun h => (hiss1m a ha1).2 h)
    · intro id hid
      rw [List.mem_append] at hid
      rcases hid with hid | hid
      · exact ⟨(hiss1u id hid).1, hmonu2 id (hiss1u id hid).2⟩
      · refine ⟨?_, (hiss2u id hid).2⟩
        by_contra hcon
        exact absurd (hiss2u id hid).1 (hmonu1 id hcon)
    · intro id hid
      rw [List.mem_append] at hid
      rcases hid with hid | hid
      · exact ⟨(hiss1m id hid).1, hmonm2 id (hiss1m id hid).2⟩
      · refine ⟨?_, (hiss2m id hid).2⟩
        by_contra hcon
        exact absurd (hiss2m id hid).1 (hmonm1 id hcon)
    · exact fun k h => hmonu2 k (hmonu1 k h)
    · exact fun k h => hmonm2 k (hmonm1 k h)

/-- C10: along any single-threaded trace of requests started from the empty
process state — with arbitrary, possibly repeating wall-clock instants —
the user identifiers issued by registration contain no duplicate, and the
meal identifiers issued by the two ingestion paths contain no duplicate:
identifiers are never reused, because each embeds the strictly growing
collection size even though it also embeds a timestamp. -/
theorem identifiers_never_reused :
    ∀ ops : List (DateTime × Op),
      ((execTrace State.empty ops).2.1).Nodup ∧
      ((execTrace State.empty ops).2.2).Nodup := by
  intro ops
  have h := execTrace_spec ops State.empty trivial trivial
  exact ⟨h.2.2.1, h.2.2.2.1⟩

end Spano
